import Mathlib

/-!
Verification of the kromosynth-evoruns Evorun Discovery & Data Access Engine.

Shallow embedding of the JavaScript sources `evorun-db.js` and
`evorun-browser-server.js`.  JavaScript values stored in a record-store column
are modelled by the inductive `JsVal`; machine integers are `Nat`; external
library calls (zlib's gunzip, `JSON.parse`) are abstracted as function
parameters, since the code under verification only branches on whether they
succeed and on the shape of their results.
-/

/-- Model of a JavaScript value as it can appear in the `data` column of a
row, or as the result of `JSON.parse`.  `bufv` models a native Node `Buffer`;
`objv` models an object as an association list of fields (field names are
assumed unique, as produced by `JSON.parse`). -/
inductive JsVal where
  | nullv
  | boolv (b : Bool)
  | numv (n : Int)
  | strv (s : List Char)
  | arrv (elems : List JsVal)
  | objv (fields : List (List Char × JsVal))
  | bufv (bytes : List Nat)
deriving Repr

/-- Property access `obj.name` on the association-list model of an object. -/
def getField (fields : List (List Char × JsVal)) (name : List Char) : Option JsVal :=
  (fields.find? (fun p => p.1 == name)).map Prod.snd

/-- Byte coercion applied by `Buffer.from` to each element of an array:
numbers are truncated to an unsigned byte; other element shapes (which never
occur in well-formed rewrapped buffers and are irrelevant to every claim) are
modelled as the byte 0. -/
def toByte : JsVal → Nat
  | .numv n => (n % 256).toNat
  | _ => 0

/-- Check for the rewrapped-buffer shape
`buffer && buffer.type === 'Buffer' && Array.isArray(buffer.data)` and, when
it matches, the byte list produced by `Buffer.from(buffer.data)`.  On a
native `Buffer` value the property accesses yield `undefined` in JavaScript,
so the check fails, matching the `none` result here. -/
def asPseudoBuffer (v : JsVal) : Option (List Nat) :=
  match v with
  | .objv fields =>
    match getField fields "type".toList, getField fields "data".toList with
    | some (.strv t), some (.arrv elems) =>
      if t = "Buffer".toList then some (elems.map toByte) else none
    | _, _ => none
  | _ => none

/-- Failure conditions raised inside the record-decode `try` block:
`invalidBlobFormat` models the explicitly thrown
`Error('Invalid data format: expected Buffer')`, and `decodeFailed` models an
exception escaping from `gunzip` or `JSON.parse` at the outer layer.  Both
are caught by the enclosing `catch`, which logs them and returns `null`. -/
inductive DecodeError where
  | invalidBlobFormat
  | decodeFailed
deriving DecidableEq, Repr

/-- Model of `getGenome(id)` from `makeRunDbApi` in `evorun-db.js`.
`genomesDb` and `hasGetGenome` model the truthiness of the database handle
and the prepared statement; `rowLookup` models `getGenome.get(id)` returning
the `data` column of the row, if any; `gunzip` and `parseJson` model the
external zlib/JSON calls (`none` models a thrown exception).  The result
pairs the returned value (`none` models `null`) with the error object passed
to `console.error` by the `catch` block, if any. -/
def getGenome (genomesDb : Bool) (hasGetGenome : Bool)
    (rowLookup : List Char → Option JsVal)
    (gunzip : List Nat → Option (List Nat)) (parseJson : List Nat → Option JsVal)
    (id : List Char) : Option JsVal × Option DecodeError :=
  if !genomesDb || !hasGetGenome then (none, none)
  else
    match rowLookup id with
    | none => (none, none)
    | some rowData =>
      let bufferOrErr : Except DecodeError (List Nat) :=
        match rowData with
        | .bufv bytes => .ok bytes
        | v =>
          match asPseudoBuffer v with
          | some bytes => .ok bytes
          | none => .error .invalidBlobFormat
      match bufferOrErr with
      | .error e => (none, some e)
      | .ok buffer =>
        match gunzip buffer with
        | none => (none, some .decodeFailed)
        | some jsonData =>
          match parseJson jsonData with
          | none => (none, some .decodeFailed)
          | some parsedData =>
            match asPseudoBuffer parsedData with
            | some innerBytes =>
              match gunzip innerBytes with
              | some innerJsonData =>
                match parseJson innerJsonData with
                | some v => (some v, none)
                | none =>
                  match parseJson innerBytes with
                  | some v => (some v, none)
                  | none => (some parsedData, none)
              | none =>
                match parseJson innerBytes with
                | some v => (some v, none)
                | none => (some parsedData, none)
            | none => (some parsedData, none)

/-- Model of `getFeature(id)` from `makeRunDbApi`; the source duplicates the
body of `getGenome` with the feature store's handle and statement. -/
def getFeature (featuresDb : Bool) (hasGetFeature : Bool)
    (rowLookup : List Char → Option JsVal)
    (gunzip : List Nat → Option (List Nat)) (parseJson : List Nat → Option JsVal)
    (id : List Char) : Option JsVal × Option DecodeError :=
  if !featuresDb || !hasGetFeature then (none, none)
  else
    match rowLookup id with
    | none => (none, none)
    | some rowData =>
      let bufferOrErr : Except DecodeError (List Nat) :=
        match rowData with
        | .bufv bytes => .ok bytes
        | v =>
          match asPseudoBuffer v with
          | some bytes => .ok bytes
          | none => .error .invalidBlobFormat
      match bufferOrErr with
      | .error e => (none, some e)
      | .ok buffer =>
        match gunzip buffer with
        | none => (none, some .decodeFailed)
        | some jsonData =>
          match parseJson jsonData with
          | none => (none, some .decodeFailed)
          | some parsedData =>
            match asPseudoBuffer parsedData with
            | some innerBytes =>
              match gunzip innerBytes with
              | some innerJsonData =>
                match parseJson innerJsonData with
                | some v => (some v, none)
                | none =>
                  match parseJson innerBytes with
                  | some v => (some v, none)
                  | none => (some parsedData, none)
              | none =>
                match parseJson innerBytes with
                | some v => (some v, none)
                | none => (some parsedData, none)
            | none => (some parsedData, none)

/-- Model of `getGenomeSync(id)` from `makeRunDbApi`; the source duplicates
the body of `getGenome`, replacing the promisified `gunzip` with
`zlib.gunzipSync` (both modelled by the same abstract `gunzip` function). -/
def getGenomeSync (genomesDb : Bool) (hasGetGenome : Bool)
    (rowLookup : List Char → Option JsVal)
    (gunzip : List Nat → Option (List Nat)) (parseJson : List Nat → Option JsVal)
    (id : List Char) : Option JsVal × Option DecodeError :=
  if !genomesDb || !hasGetGenome then (none, none)
  else
    match rowLookup id with
    | none => (none, none)
    | some rowData =>
      let bufferOrErr : Except DecodeError (List Nat) :=
        match rowData with
        | .bufv bytes => .ok bytes
        | v =>
          match asPseudoBuffer v with
          | some bytes => .ok bytes
          | none => .error .invalidBlobFormat
      match bufferOrErr with
      | .error e => (none, some e)
      | .ok buffer =>
        match gunzip buffer with
        | none => (none, some .decodeFailed)
        | some jsonData =>
          match parseJson jsonData with
          | none => (none, some .decodeFailed)
          | some parsedData =>
            match asPseudoBuffer parsedData with
            | some innerBytes =>
              match gunzip innerBytes with
              | some innerJsonData =>
                match parseJson innerJsonData with
                | some v => (some v, none)
                | none =>
                  match parseJson innerBytes with
                  | some v => (some v, none)
                  | none => (some parsedData, none)
              | none =>
                match parseJson innerBytes with
                | some v => (some v, none)
                | none => (some parsedData, none)
            | none => (some parsedData, none)

/-- Model of `getFeatureSync(id)` from `makeRunDbApi`; the source duplicates
the body of `getFeature` with `zlib.gunzipSync`. -/
def getFeatureSync (featuresDb : Bool) (hasGetFeature : Bool)
    (rowLookup : List Char → Option JsVal)
    (gunzip : List Nat → Option (List Nat)) (parseJson : List Nat → Option JsVal)
    (id : List Char) : Option JsVal × Option DecodeError :=
  if !featuresDb || !hasGetFeature then (none, none)
  else
    match rowLookup id with
    | none => (none, none)
    | some rowData =>
      let bufferOrErr : Except DecodeError (List Nat) :=
        match rowData with
        | .bufv bytes => .ok bytes
        | v =>
          match asPseudoBuffer v with
          | some bytes => .ok bytes
          | none => .error .invalidBlobFormat
      match bufferOrErr with
      | .error e => (none, some e)
      | .ok buffer =>
        match gunzip buffer with
        | none => (none, some .decodeFailed)
        | some jsonData =>
          match parseJson jsonData with
          | none => (none, some .decodeFailed)
          | some parsedData =>
            match asPseudoBuffer parsedData with
            | some innerBytes =>
              match gunzip innerBytes with
              | some innerJsonData =>
                match parseJson innerJsonData with
                | some v => (some v, none)
                | none =>
                  match parseJson innerBytes with
                  | some v => (some v, none)
                  | none => (some parsedData, none)
              | none =>
                match parseJson innerBytes with
                | some v => (some v, none)
                | none => (some parsedData, none)
            | none => (some parsedData, none)

/-- Helper: a row value that is neither a native buffer nor a well-formed
pseudo-buffer drives `getGenome` into the thrown-and-caught
`invalidBlobFormat` condition. -/
theorem getGenome_invalidBlob (rl : List Char → Option JsVal)
    (gz : List Nat → Option (List Nat)) (pj : List Nat → Option JsVal)
    (id : List Char) (v : JsVal) (hv : ∀ b, v ≠ JsVal.bufv b)
    (hp : asPseudoBuffer v = none) (hrl : rl id = some v) :
    getGenome true true rl gz pj id = (none, some DecodeError.invalidBlobFormat) := by
  cases v with
  | bufv b => exact absurd rfl (hv b)
  | nullv => simp [getGenome, hrl, asPseudoBuffer]
  | boolv b => simp [getGenome, hrl, asPseudoBuffer]
  | numv n => simp [getGenome, hrl, asPseudoBuffer]
  | strv s => simp [getGenome, hrl, asPseudoBuffer]
  | arrv es => simp [getGenome, hrl, asPseudoBuffer]
  | objv fs => simp [getGenome, hrl, hp]

/-- Helper: a missing row yields the silent `null` result, with nothing
logged. -/
theorem getGenome_missingRow (rl : List Char → Option JsVal)
    (gz : List Nat → Option (List Nat)) (pj : List Nat → Option JsVal)
    (id : List Char) (hrl : rl id = none) :
    getGenome true true rl gz pj id = (none, none) := by
  simp [getGenome, hrl]

/-- C1: for every column value that is neither a byte sequence nor a
well-formed pseudo-buffer object, the record decode operation (`getGenome`,
`getFeature` and their `Sync` variants) produces the `invalidBlobFormat`
failure condition (the thrown-and-logged error), not a silent null: the
returned pair carries `some DecodeError.invalidBlobFormat`, unlike the
missing-row case which returns `(none, none)`. -/
theorem claim_c1_invalid_blob_yields_error
    (rl : List Char → Option JsVal) (gz : List Nat → Option (List Nat))
    (pj : List Nat → Option JsVal) (id : List Char) (v : JsVal)
    (hv : ∀ b, v ≠ JsVal.bufv b) (hp : asPseudoBuffer v = none)
    (hrl : rl id = some v) :
    getGenome true true rl gz pj id = (none, some DecodeError.invalidBlobFormat) ∧
    getFeature true true rl gz pj id = (none, some DecodeError.invalidBlobFormat) ∧
    getGenomeSync true true rl gz pj id = (none, some DecodeError.invalidBlobFormat) ∧
    getFeatureSync true true rl gz pj id = (none, some DecodeError.invalidBlobFormat) :=
  ⟨getGenome_invalidBlob rl gz pj id v hv hp hrl,
   getGenome_invalidBlob rl gz pj id v hv hp hrl,
   getGenome_invalidBlob rl gz pj id v hv hp hrl,
   getGenome_invalidBlob rl gz pj id v hv hp hrl⟩

/-- Witness for C1 at the concrete malformed column value `null`. -/
theorem claim_c1_witness :
    getGenome true true (fun _ => some JsVal.nullv) (fun _ => none) (fun _ => none) [] =
      (none, some DecodeError.invalidBlobFormat) :=
  (claim_c1_invalid_blob_yields_error (fun _ => some JsVal.nullv) (fun _ => none)
    (fun _ => none) [] JsVal.nullv (fun _ h => JsVal.noConfusion h) rfl rfl).1

/-- C10: for every stored row value (and every behaviour of the abstracted
zlib and JSON collaborators), the asynchronous decode operation `getGenome`
and the synchronous `getGenomeSync` compute the same result, and likewise
`getFeature` and `getFeatureSync`: the duplicated normalization,
decompression and fallback chains agree pointwise. -/
theorem claim_c10_sync_async_equivalence :
    (∀ (gdb hg : Bool) (rl : List Char → Option JsVal)
        (gz : List Nat → Option (List Nat)) (pj : List Nat → Option JsVal)
        (id : List Char), getGenome gdb hg rl gz pj id = getGenomeSync gdb hg rl gz pj id) ∧
    (∀ (fdb hf : Bool) (rl : List Char → Option JsVal)
        (gz : List Nat → Option (List Nat)) (pj : List Nat → Option JsVal)
        (id : List Char), getFeature fdb hf rl gz pj id = getFeatureSync fdb hf rl gz pj id) :=
  ⟨fun _ _ _ _ _ _ => rfl, fun _ _ _ _ _ _ => rfl⟩

/-- Alphabet used by `decodeULIDTimestamp` in `evorun-browser-server.js`:
`const base32Chars = '0123456789ABCDEFGHJKMNPQRSTVWXYZ'`. -/
def base32Chars : List Char := "0123456789ABCDEFGHJKMNPQRSTVWXYZ".toList

/-- Failure raised by `decodeULIDTimestamp`: the thrown
`Error('Invalid ULID character: ...')`. -/
inductive ULIDError where
  | invalidChar (c : Char)
deriving DecidableEq, Repr

/-- Model of JavaScript `String.prototype.indexOf` restricted to single
characters: the index of the first occurrence, if any. -/
def charIdx32 : List Char → Char → Option Nat
  | [], _ => none
  | a :: rest, c => if a == c then some 0 else (charIdx32 rest c).map (· + 1)

/-- Value of a character in the ULID alphabet (`base32Chars.indexOf(char)`),
with `none` modelling the `-1` sentinel. -/
def charIdx (c : Char) : Option Nat := charIdx32 base32Chars c

/-- Loop body of `decodeULIDTimestamp`: left-to-right accumulation
`timestamp = timestamp * 32 + value`, throwing on a character outside the
alphabet. -/
def decodeULIDGo : List Char → Nat → Except ULIDError Nat
  | [], acc => .ok acc
  | c :: rest, acc =>
    match charIdx c with
    | none => .error (.invalidChar c)
    | some v => decodeULIDGo rest (acc * 32 + v)

/-- Model of `decodeULIDTimestamp(ulid)`: only the first 10 characters
(`ulid.substring(0, 10)`) are interpreted. -/
def decodeULIDTimestamp (ulid : List Char) : Except ULIDError Nat :=
  decodeULIDGo (ulid.take 10) 0

/-- Digit value of a character, defaulting to 0 outside the alphabet. -/
def charVal (c : Char) : Nat := (charIdx c).getD 0

/-- Big-endian base-32 accumulation of a list of characters starting from
accumulator `a`. -/
def foldAcc32 (a : Nat) (l : List Char) : Nat :=
  l.foldl (fun acc c => acc * 32 + charVal c) a

/-- Modelled from the spec: decoding takes the first 10 symbols, fails with
`InvalidIdentifier` (carrying the first offending character) if any of them
is outside the alphabet, and otherwise reduces them left-to-right as
big-endian base-32 digits. -/
def specDecodeTimestamp (ulid : List Char) : Except ULIDError Nat :=
  match (ulid.take 10).find? (fun c => (charIdx c).isNone) with
  | some c => .error (.invalidChar c)
  | none => .ok (foldAcc32 0 (ulid.take 10))

theorem decodeULIDGo_eq_find (l : List Char) :
    ∀ a, decodeULIDGo l a =
      match l.find? (fun c => (charIdx c).isNone) with
      | some c => .error (.invalidChar c)
      | none => .ok (foldAcc32 a l) := by
  induction l with
  | nil => intro a; rfl
  | cons c rest ih =>
    intro a
    cases h : charIdx c with
    | none =>
      simp [decodeULIDGo, h, List.find?_cons]
    | some v =>
      simp [decodeULIDGo, h, List.find?_cons, ih, foldAcc32, charVal]

theorem decode_eq_specDecode (ulid : List Char) :
    decodeULIDTimestamp ulid = specDecodeTimestamp ulid :=
  decodeULIDGo_eq_find (ulid.take 10) 0

theorem decode_ok_of_valid (ulid : List Char)
    (h : ∀ c ∈ ulid.take 10, (charIdx c).isSome) :
    decodeULIDTimestamp ulid = .ok (foldAcc32 0 (ulid.take 10)) := by
  rw [decode_eq_specDecode]
  unfold specDecodeTimestamp
  have hfind : (ulid.take 10).find? (fun c => (charIdx c).isNone) = none := by
    rw [List.find?_eq_none]
    intro c hc
    have hs := h c hc
    rw [Option.isSome_iff_ne_none] at hs
    simpa using hs
  rw [hfind]

theorem foldAcc32_eq_ofDigits (l : List Char) :
    ∀ a, foldAcc32 a l = Nat.ofDigits 32 ((l.map charVal).reverse) + a * 32 ^ l.length := by
  induction l with
  | nil => intro a; simp [foldAcc32, Nat.ofDigits]
  | cons c rest ih =>
    intro a
    have h1 : foldAcc32 a (c :: rest) = foldAcc32 (a * 32 + charVal c) rest := rfl
    rw [h1, ih]
    simp only [List.map_cons, List.reverse_cons, Nat.ofDigits_append, List.length_reverse,
      List.length_map, List.length_cons, Nat.ofDigits_singleton, pow_succ]
    ring

theorem charIdx32_lt_length (l : List Char) (c : Char) :
    ∀ i, charIdx32 l c = some i → i < l.length := by
  induction l with
  | nil => intro i h; simp [charIdx32] at h
  | cons a rest ih =>
    intro i h
    by_cases hac : a == c
    · simp [charIdx32, hac] at h
      simp only [List.length_cons]
      omega
    · simp [charIdx32, hac] at h
      obtain ⟨j, hj, hji⟩ := h
      have := ih j hj
      simp only [List.length_cons]
      omega

theorem charVal_lt_32 (c : Char) (h : (charIdx c).isSome) : charVal c < 32 := by
  obtain ⟨i, hi⟩ := Option.isSome_iff_exists.mp h
  have hlen : i < base32Chars.length := charIdx32_lt_length _ _ i hi
  have h32 : base32Chars.length = 32 := by decide
  simp only [charVal, hi, Option.getD_some]
  omega

theorem charIdx32_isSome_iff (l : List Char) (c : Char) :
    (charIdx32 l c).isSome ↔ c ∈ l := by
  induction l with
  | nil => simp [charIdx32]
  | cons a rest ih =>
    by_cases hac : a == c
    · have : a = c := by simpa using hac
      simp [charIdx32, hac, this]
    · have hne : ¬ c = a := fun h => hac (by simp [h])
      simp [charIdx32, hac, ih, List.mem_cons, hne]

theorem charVal_strictMono :
    ∀ c ∈ base32Chars, ∀ d ∈ base32Chars, c < d → charVal c < charVal d := by
  decide

theorem foldAcc32_lt :
    ∀ (l : List Char), (∀ c ∈ l, (charIdx c).isSome) →
      ∀ a, foldAcc32 a l < (a + 1) * 32 ^ l.length := by
  intro l
  induction l with
  | nil => intro _ a; simp [foldAcc32]
  | cons c rest ih =>
    intro hl a
    have hc : charVal c < 32 := charVal_lt_32 c (hl c (by simp))
    have hrest : ∀ x ∈ rest, (charIdx x).isSome := fun x hx => hl x (by simp [hx])
    have h1 : foldAcc32 a (c :: rest) = foldAcc32 (a * 32 + charVal c) rest := rfl
    rw [h1]
    calc foldAcc32 (a * 32 + charVal c) rest
        < (a * 32 + charVal c + 1) * 32 ^ rest.length := ih hrest _
      _ ≤ ((a + 1) * 32) * 32 ^ rest.length := by
          have hle : a * 32 + charVal c + 1 ≤ (a + 1) * 32 := by omega
          exact Nat.mul_le_mul_right _ hle
      _ = (a + 1) * 32 ^ (c :: rest).length := by
          simp [List.length_cons, pow_succ]
          ring

theorem le_foldAcc32 : ∀ (l : List Char) (a : Nat), a * 32 ^ l.length ≤ foldAcc32 a l := by
  intro l
  induction l with
  | nil => intro a; simp [foldAcc32]
  | cons c rest ih =>
    intro a
    have h1 : foldAcc32 a (c :: rest) = foldAcc32 (a * 32 + charVal c) rest := rfl
    rw [h1]
    calc a * 32 ^ (c :: rest).length = (a * 32) * 32 ^ rest.length := by
          simp [List.length_cons, pow_succ]; ring
      _ ≤ (a * 32 + charVal c) * 32 ^ rest.length := Nat.mul_le_mul_right _ (by omega)
      _ ≤ foldAcc32 (a * 32 + charVal c) rest := ih _

/-- Model of JavaScript lexicographic string comparison `A < B` over the
character lists of the two strings (UTF-16 code-unit order, which for the
identifier alphabet coincides with code-point order). -/
def jsLexLt : List Char → List Char → Bool
  | [], [] => false
  | [], _ :: _ => true
  | _ :: _, [] => false
  | a :: as, b :: bs => if a < b then true else if b < a then false else jsLexLt as bs

theorem foldAcc32_mono :
    ∀ (l1 l2 : List Char), l1.length = l2.length →
      (∀ c ∈ l1, (charIdx c).isSome) → (∀ c ∈ l2, (charIdx c).isSome) →
      jsLexLt l1 l2 = true → ∀ a, foldAcc32 a l1 ≤ foldAcc32 a l2 := by
  intro l1
  induction l1 with
  | nil =>
    intro l2 hlen _ _ hlex a
    cases l2 with
    | nil => simp [jsLexLt] at hlex
    | cons b bs => simp at hlen
  | cons c1 r1 ih =>
    intro l2 hlen h1 h2 hlex a
    cases l2 with
    | nil => simp [jsLexLt] at hlex
    | cons c2 r2 =>
      have hlen' : r1.length = r2.length := by simpa using hlen
      have hr1 : ∀ x ∈ r1, (charIdx x).isSome := fun x hx => h1 x (by simp [hx])
      have hr2 : ∀ x ∈ r2, (charIdx x).isSome := fun x hx => h2 x (by simp [hx])
      by_cases hlt : c1 < c2
      · have hm1 : c1 ∈ base32Chars := (charIdx32_isSome_iff _ _).mp (h1 c1 (by simp))
        have hm2 : c2 ∈ base32Chars := (charIdx32_isSome_iff _ _).mp (h2 c2 (by simp))
        have hv : charVal c1 < charVal c2 := charVal_strictMono c1 hm1 c2 hm2 hlt
        have e1 : foldAcc32 a (c1 :: r1) = foldAcc32 (a * 32 + charVal c1) r1 := rfl
        have e2 : foldAcc32 a (c2 :: r2) = foldAcc32 (a * 32 + charVal c2) r2 := rfl
        rw [e1, e2]
        have hstep :
            foldAcc32 (a * 32 + charVal c1) r1 < foldAcc32 (a * 32 + charVal c2) r2 := by
          calc foldAcc32 (a * 32 + charVal c1) r1
              < (a * 32 + charVal c1 + 1) * 32 ^ r1.length := foldAcc32_lt r1 hr1 _
            _ ≤ (a * 32 + charVal c2) * 32 ^ r1.length :=
                Nat.mul_le_mul_right _ (by omega)
            _ = (a * 32 + charVal c2) * 32 ^ r2.length := by rw [hlen']
            _ ≤ foldAcc32 (a * 32 + charVal c2) r2 := le_foldAcc32 r2 _
        exact Nat.le_of_lt hstep
      · by_cases hgt : c2 < c1
        · simp [jsLexLt, hlt, hgt] at hlex
        · have hceq : c1 = c2 := le_antisymm (not_lt.mp hgt) (not_lt.mp hlt)
          have hlex' : jsLexLt r1 r2 = true := by
            simpa [jsLexLt, hlt, hgt] using hlex
          have e1 : foldAcc32 a (c1 :: r1) = foldAcc32 (a * 32 + charVal c1) r1 := rfl
          have e2 : foldAcc32 a (c2 :: r2) = foldAcc32 (a * 32 + charVal c2) r2 := rfl
          rw [e1, e2, hceq]
          exact ih r2 hlen' (by rw [hceq] at h1; exact hr1) hr2 hlex' _

theorem jsLexLt_take :
    ∀ (n : Nat) (l1 l2 : List Char), jsLexLt l1 l2 = true →
      jsLexLt (l1.take n) (l2.take n) = true ∨ l1.take n = l2.take n := by
  intro n
  induction n with
  | zero => intro l1 l2 _; right; simp
  | succ n ih =>
    intro l1 l2 h
    cases l1 with
    | nil =>
      cases l2 with
      | nil => simp [jsLexLt] at h
      | cons b bs => left; simp [jsLexLt]
    | cons a as =>
      cases l2 with
      | nil => simp [jsLexLt] at h
      | cons b bs =>
        by_cases hlt : a < b
        · left; simp [jsLexLt, hlt]
        · by_cases hgt : b < a
          · simp [jsLexLt, hlt, hgt] at h
          · have heq : a = b := le_antisymm (not_lt.mp hgt) (not_lt.mp hlt)
            have h' : jsLexLt as bs = true := by simpa [jsLexLt, hlt, hgt] using h
            rcases ih as bs h' with hl | he
            · left
              simp [List.take_succ_cons, jsLexLt, heq, hl]
            · right
              simp [List.take_succ_cons, heq, he]

/-- Identifier validity for C7: exactly 26 characters, all from the
identifier alphabet. -/
def validULID (l : List Char) : Prop := l.length = 26 ∧ ∀ c ∈ l, (charIdx c).isSome

instance (l : List Char) : Decidable (validULID l) := by
  unfold validULID
  infer_instance

/-- C6: for every 26-character identifier, `decodeULIDTimestamp` interprets
exactly the first 10 characters as big-endian base-32 digits over the
alphabet `0-9A-HJKMNP-TV-Z` (accumulator = accumulator*32 + digitValue),
failing with an invalid-identifier error if any of those 10 characters is
outside the alphabet: the code agrees with the spec-side decoder, depends
only on the first 10 characters, and on valid prefixes produces the
big-endian base-32 value of their digit values. -/
theorem claim_c6_decode_first10_base32 :
    (∀ ulid : List Char, ulid.length = 26 →
      decodeULIDTimestamp ulid = specDecodeTimestamp ulid) ∧
    (∀ A B : List Char, A.take 10 = B.take 10 →
      decodeULIDTimestamp A = decodeULIDTimestamp B) ∧
    (∀ ulid : List Char, (∀ c ∈ ulid.take 10, (charIdx c).isSome) →
      decodeULIDTimestamp ulid =
        .ok (Nat.ofDigits 32 ((ulid.take 10).map charVal).reverse)) := by
  refine ⟨fun ulid _ => decode_eq_specDecode ulid, fun A B h => ?_, fun ulid h => ?_⟩
  · unfold decodeULIDTimestamp
    rw [h]
  · rw [decode_ok_of_valid ulid h, foldAcc32_eq_ofDigits]
    simp

/-- Witness for C6 at a concrete 26-character identifier. -/
theorem claim_c6_witness :
    decodeULIDTimestamp "01HV4QJXDW0000000000000000".toList =
      specDecodeTimestamp "01HV4QJXDW0000000000000000".toList :=
  claim_c6_decode_first10_base32.1 _ (by decide)

/-- C2 counterexample: the identifier `0000000000IIIIIIIIIIIIIIII` has 26
characters and contains the excluded character `I`, yet `decodeULIDTimestamp`
returns a timestamp (0) instead of failing, because only the first 10
characters are inspected.  This refutes the claim as stated ("at any
position"). -/
theorem claim_c2_counterexample :
    "0000000000IIIIIIIIIIIIIIII".toList.length = 26 ∧
    'I' ∈ "0000000000IIIIIIIIIIIIIIII".toList ∧
    decodeULIDTimestamp "0000000000IIIIIIIIIIIIIIII".toList = .ok 0 :=
  ⟨by decide, by decide, rfl⟩

/-- C2 (amended): for every 26-character identifier containing `I`, `L`, `O`
or `U` among its first 10 characters, `decodeULIDTimestamp` fails with an
invalid-identifier error (it never returns a timestamp for such an
identifier). -/
theorem claim_c2_amended_excluded_letters (id : List Char) (hlen : id.length = 26)
    (h : ∃ c ∈ id.take 10, c ∈ [ 'I', 'L', 'O', 'U' ]) :
    ∃ d, decodeULIDTimestamp id = .error (.invalidChar d) := by
  obtain ⟨c, hc, hbad⟩ := h
  have hnone : charIdx c = none := by
    simp only [List.mem_cons, List.not_mem_nil, or_false] at hbad
    rcases hbad with rfl | rfl | rfl | rfl <;> rfl
  rw [decode_eq_specDecode]
  unfold specDecodeTimestamp
  cases hfind : (id.take 10).find? (fun c => (charIdx c).isNone) with
  | some d => exact ⟨d, rfl⟩
  | none =>
    exfalso
    have := List.find?_eq_none.mp hfind c hc
    simp [hnone] at this

/-- Witness for the amended C2 at a concrete identifier with `I` at
position 5. -/
theorem claim_c2_witness :
    ∃ d, decodeULIDTimestamp "00000I00000000000000000000".toList =
      .error (.invalidChar d) :=
  claim_c2_amended_excluded_letters _ (by decide) ⟨ 'I', by decide, by decide⟩

/-- C7: `decodeULIDTimestamp` is deterministic, and monotone with respect to
lexicographic order on valid 26-character identifiers: if A sorts
lexicographically before B then the decoded timestamp of A is at most that
of B. -/
theorem claim_c7_deterministic_monotone :
    (∀ A B : List Char, A = B → decodeULIDTimestamp A = decodeULIDTimestamp B) ∧
    (∀ (A B : List Char) (ta tb : Nat), validULID A → validULID B →
      jsLexLt A B = true → decodeULIDTimestamp A = .ok ta →
      decodeULIDTimestamp B = .ok tb → ta ≤ tb) := by
  constructor
  · intro A B h
    rw [h]
  · intro A B ta tb hA hB hlex hta htb
    have hA10 : ∀ c ∈ A.take 10, (charIdx c).isSome :=
      fun c hc => hA.2 c (List.mem_of_mem_take hc)
    have hB10 : ∀ c ∈ B.take 10, (charIdx c).isSome :=
      fun c hc => hB.2 c (List.mem_of_mem_take hc)
    rw [decode_ok_of_valid A hA10] at hta
    rw [decode_ok_of_valid B hB10] at htb
    have hta' : foldAcc32 0 (A.take 10) = ta := by
      injection hta
    have htb' : foldAcc32 0 (B.take 10) = tb := by
      injection htb
    rw [← hta', ← htb']
    rcases jsLexLt_take 10 A B hlex with hl | he
    · have hlen : (A.take 10).length = (B.take 10).length := by
        simp [hA.1, hB.1]
      exact foldAcc32_mono _ _ hlen hA10 hB10 hl 0
    · rw [he]

/-- Witness for C7 at two concrete valid identifiers differing in the tenth
character. -/
theorem claim_c7_witness : (0 : Nat) ≤ 1 :=
  claim_c7_deterministic_monotone.2
    "00000000000000000000000000".toList "00000000010000000000000000".toList 0 1
    (by decide) (by decide) (by decide) rfl rfl

/-- Milliseconds per day, the constant `86400000` from
`formatDateByGranularity`. -/
def msPerDay : Nat := 86400000

/-- Civil date (year, month, day; month and day 1-based) of a day count
since the Unix epoch, via the standard Gregorian era decomposition.  This
models the calendar arithmetic behind the JavaScript `Date` accessors
`getFullYear`/`getMonth`/`getDate`; the host timezone of the server is
modelled as UTC, so local-time and UTC accessors coincide. -/
def civilFromDays (z : Nat) : Nat × Nat × Nat :=
  let z' := z + 719468
  let era := z' / 146097
  let doe := z' % 146097
  let yoe := (doe - doe / 1460 + doe / 36524 - doe / 146096) / 365
  let y := yoe + era * 400
  let doy := doe - (365 * yoe + yoe / 4 - yoe / 100)
  let mp := (5 * doy + 2) / 153
  let d := doy - (153 * mp + 2) / 5 + 1
  let m := if mp < 10 then mp + 3 else mp - 9
  (if m ≤ 2 then y + 1 else y, m, d)

/-- Day count since the Unix epoch of a civil date; inverse of
`civilFromDays` for dates from 1970 on.  Models the `Date(year, 0, 1)`
constructor used for the start of the year. -/
def daysFromCivil (y m d : Nat) : Nat :=
  let y' := if m ≤ 2 then y - 1 else y
  let era := y' / 400
  let yoe := y' % 400
  let doy := (153 * (if m > 2 then m - 3 else m + 9) + 2) / 5 + d - 1
  let doe := yoe * 365 + yoe / 4 - yoe / 100 + doy
  era * 146097 + doe - 719468

/-- Model of `date.getFullYear()` for a millisecond timestamp. -/
def dateYear (t : Nat) : Nat := (civilFromDays (t / msPerDay)).1

/-- Model of `date.getMonth() + 1` (the code converts the 0-based JS month
to 1-based immediately). -/
def dateMonth (t : Nat) : Nat := (civilFromDays (t / msPerDay)).2.1

/-- Model of `date.getDate()`. -/
def dateDay (t : Nat) : Nat := (civilFromDays (t / msPerDay)).2.2

/-- Model of `date.getDay()` (weekday, 0 = Sunday .. 6 = Saturday); the Unix
epoch fell on a Thursday. -/
def dateWeekday (t : Nat) : Nat := (t / msPerDay + 4) % 7

/-- Model of `String(n)` (decimal representation). -/
def natToChars (n : Nat) : List Char := (Nat.repr n).toList

/-- Model of `s.padStart(2, '0')`. -/
def padStart2 (s : List Char) : List Char := List.replicate (2 - s.length) '0' ++ s

/-- Ceiling division on naturals, modelling `Math.ceil` of an exact
non-negative quotient.  The floating-point expression in the source is
exact at this scale: the intermediate quotients carry an absolute error
below 1e-13 while the distance of a non-integral exact value to the nearest
integer is at least 1/(7*86400000), so the ceiling never flips. -/
def ceilDivNat (a b : Nat) : Nat := (a + b - 1) / b

/-- Bucket granularities accepted by the server (`day`, `week`, `month`). -/
inductive Granularity where
  | day
  | week
  | month
deriving DecidableEq, Repr

/-- Millisecond timestamp of `new Date(year, 0, 1)` (start of the year, in
the UTC-modelled local time). -/
def startOfYearMs (y : Nat) : Nat := daysFromCivil y 1 1 * msPerDay

/-- Model of `formatDateByGranularity(date, granularity)` from
`evorun-browser-server.js`.  The `week` branch computes
`Math.ceil(((date - startOfYear) / 86400000 + startOfYear.getDay() + 1) / 7)`
which with exact arithmetic equals the ceiling division below. -/
def formatDateByGranularity (t : Nat) (g : Granularity) : List Char :=
  let year := dateYear t
  let month := dateMonth t
  match g with
  | .day =>
    natToChars year ++ [ '-' ] ++ padStart2 (natToChars month) ++ [ '-' ] ++
      padStart2 (natToChars (dateDay t))
  | .week =>
    let startOfYear := startOfYearMs year
    let weekNumber :=
      ceilDivNat (t - startOfYear + (dateWeekday startOfYear + 1) * msPerDay) (7 * msPerDay)
    natToChars year ++ [ '-', 'W' ] ++ padStart2 (natToChars weekNumber)
  | .month =>
    natToChars year ++ [ '-' ] ++ padStart2 (natToChars month)

/-- Modelled from the spec: bucket key `YYYY-MM` with 1-based zero-padded
month. -/
def specMonthKey (t : Nat) : List Char :=
  natToChars (dateYear t) ++ [ '-' ] ++ padStart2 (natToChars (dateMonth t))

/-- Modelled from the spec: bucket key `YYYY-MM-DD`. -/
def specDayKey (t : Nat) : List Char :=
  natToChars (dateYear t) ++ [ '-' ] ++ padStart2 (natToChars (dateMonth t)) ++
    [ '-' ] ++ padStart2 (natToChars (dateDay t))

/-- Modelled from the spec: week number
`ceil(((date - Jan1OfYear) in days + Jan1.weekday() + 1) / 7)`, expressed
over exact millisecond counts. -/
def specWeekNumber (t : Nat) : Nat :=
  ceilDivNat (t - startOfYearMs (dateYear t) +
    (dateWeekday (startOfYearMs (dateYear t)) + 1) * msPerDay) (7 * msPerDay)

/-- Modelled from the spec: bucket key `YYYY-W{WW}` with the non-ISO week
number. -/
def specWeekKey (t : Nat) : List Char :=
  natToChars (dateYear t) ++ [ '-', 'W' ] ++ padStart2 (natToChars (specWeekNumber t))

/-- C3: for every decoded timestamp, the bucket key of the `month`
granularity is `YYYY-MM`, of `day` is `YYYY-MM-DD`, and of `week` is
`YYYY-W{WW}` with the stated non-ISO week formula; in particular the
timestamp 2024-01-15T10:30:45.123Z yields exactly `2024-01` for month and
`2024-01-15` for day, and a golden table of week keys spanning the
2023/2024 year boundary is reproduced. -/
theorem claim_c3_bucket_key_format :
    (∀ t : Nat, formatDateByGranularity t .month = specMonthKey t) ∧
    (∀ t : Nat, formatDateByGranularity t .day = specDayKey t) ∧
    (∀ t : Nat, formatDateByGranularity t .week = specWeekKey t) ∧
    formatDateByGranularity 1705314645123 .month = "2024-01".toList ∧
    formatDateByGranularity 1705314645123 .day = "2024-01-15".toList ∧
    formatDateByGranularity 1705314645123 .week = "2024-W03".toList ∧
    formatDateByGranularity 1703980800000 .week = "2023-W53".toList ∧
    formatDateByGranularity 1704067200000 .week = "2024-W01".toList ∧
    formatDateByGranularity 1704585600000 .week = "2024-W02".toList ∧
    formatDateByGranularity 1709164800000 .week = "2024-W09".toList ∧
    formatDateByGranularity 1735603200000 .week = "2024-W53".toList :=
  ⟨fun _ => rfl, fun _ => rfl, fun _ => rfl,
   by decide, by decide, by decide, by decide, by decide, by decide, by decide, by decide⟩

/-- Character class `[0-9A-Z]` from the directory-name patterns
`/^[0-9A-Z]{26}_/` and `/^([0-9A-Z]{26})_/`. -/
def isUlidChar (c : Char) : Bool :=
  ( '0' ≤ c && c ≤ '9') || ( 'A' ≤ c && c ≤ 'Z')

/-- Test of the leading-identifier pattern `/^[0-9A-Z]{26}_/` on a folder
name: 26 characters from the class followed by an underscore. -/
def ulidDirTest (name : List Char) : Bool :=
  (name.take 26).length == 26 && (name.take 26).all isUlidChar &&
    name.get? 26 == some '_'

/-- Literal excluded suffix `'_failed-genes'`. -/
def failedGenesSuffix : List Char := "_failed-genes".toList

/-- Model of `entry.name.endsWith('_failed-genes')`. -/
def hasFailedSuffix (name : List Char) : Bool :=
  failedGenesSuffix.isSuffixOf name

/-- Directory tree for the discovery scan: a directory name and its
subdirectories (plain files are ignored by the scan's `isDirectory` filter
and are not modelled). -/
inductive DirTree where
  | node (name : List Char) (subdirs : List DirTree)

/-- Name of the root of a directory tree. -/
def DirTree.name : DirTree → List Char
  | .node n _ => n

/-- Subdirectories of the root of a directory tree. -/
def DirTree.subdirs : DirTree → List DirTree
  | .node _ subs => subs

mutual
/-- Folder names emitted by `scanDirectory` when invoked on directory `t`
(model of `scanEvorunDirectories`: a matching name without the excluded
suffix is pushed, a matching name with the suffix is skipped, and any other
name is recursed into). -/
def scanEmits : DirTree → List (List Char)
  | .node _ subs => scanEmitsList subs
/-- Folder names emitted while processing a list of sibling directory
entries. -/
def scanEmitsList : List DirTree → List (List Char)
  | [] => []
  | c :: rest =>
    (if ulidDirTest c.name then
      (if hasFailedSuffix c.name then [] else [c.name])
     else scanEmits c) ++ scanEmitsList rest
end

mutual
/-- Directories recursed into by `scanDirectory` below directory `t` (the
root `t` itself is scanned but not counted here). -/
def scanRecursed : DirTree → List DirTree
  | .node _ subs => scanRecursedList subs
/-- Directories recursed into while processing a list of sibling entries. -/
def scanRecursedList : List DirTree → List DirTree
  | [] => []
  | c :: rest =>
    (if ulidDirTest c.name then [] else c :: scanRecursed c) ++ scanRecursedList rest
end

mutual
theorem scanEmits_sound (t : DirTree) :
    ∀ n ∈ scanEmits t, ulidDirTest n = true ∧ hasFailedSuffix n = false := by
  cases t with
  | node name subs => exact scanEmitsList_sound subs
theorem scanEmitsList_sound (l : List DirTree) :
    ∀ n ∈ scanEmitsList l, ulidDirTest n = true ∧ hasFailedSuffix n = false := by
  cases l with
  | nil => intro n hn; simp [scanEmitsList] at hn
  | cons c rest =>
    intro n hn
    simp only [scanEmitsList, List.mem_append] at hn
    rcases hn with hn | hn
    · by_cases hu : ulidDirTest c.name
      · by_cases hf : hasFailedSuffix c.name
        · simp [hu, hf] at hn
        · simp [hu, hf] at hn
          subst hn
          exact ⟨hu, by simpa using hf⟩
      · simp only [hu, if_false] at hn
        exact scanEmits_sound c n hn
    · exact scanEmitsList_sound rest n hn
end

mutual
theorem scanRecursed_sound (t : DirTree) :
    ∀ d ∈ scanRecursed t, ulidDirTest d.name = false := by
  cases t with
  | node name subs => exact scanRecursedList_sound subs
theorem scanRecursedList_sound (l : List DirTree) :
    ∀ d ∈ scanRecursedList l, ulidDirTest d.name = false := by
  cases l with
  | nil => intro d hd; simp [scanRecursedList] at hd
  | cons c rest =>
    intro d hd
    simp only [scanRecursedList, List.mem_append] at hd
    rcases hd with hd | hd
    · by_cases hu : ulidDirTest c.name
      · simp [hu] at hd
      · simp [hu, List.mem_cons] at hd
        rcases hd with rfl | hd
        · simpa using hu
        · exact scanRecursed_sound c d hd
    · exact scanRecursedList_sound rest d hd
end

theorem mem_scanEmitsList_of_child :
    ∀ (l : List DirTree) (c : DirTree), c ∈ l → ulidDirTest c.name = true →
      hasFailedSuffix c.name = false → c.name ∈ scanEmitsList l := by
  intro l
  induction l with
  | nil => intro c hc; simp at hc
  | cons d rest ih =>
    intro c hc hu hf
    rcases List.mem_cons.mp hc with rfl | hc
    · simp only [scanEmitsList, List.mem_append]
      left
      simp [hu, hf]
    · simp only [scanEmitsList, List.mem_append]
      right
      exact ih c hc hu hf

mutual
theorem scanEmits_sub (t : DirTree) :
    ∀ d ∈ scanRecursed t, ∀ n ∈ scanEmits d, n ∈ scanEmits t := by
  cases t with
  | node name subs => exact scanEmitsList_sub subs
theorem scanEmitsList_sub (l : List DirTree) :
    ∀ d ∈ scanRecursedList l, ∀ n ∈ scanEmits d, n ∈ scanEmitsList l := by
  cases l with
  | nil => intro d hd; simp [scanRecursedList] at hd
  | cons c rest =>
    intro d hd n hn
    simp only [scanRecursedList, List.mem_append] at hd
    simp only [scanEmitsList, List.mem_append]
    rcases hd with hd | hd
    · by_cases hu : ulidDirTest c.name
      · simp [hu] at hd
      · left
        simp only [hu, if_false]
        rcases List.mem_cons.mp (by simpa [hu] using hd) with rfl | hd'
        · exact hn
        · exact scanEmits_sub c d hd' n hn
    · right
      exact scanEmitsList_sub rest d hd n hn
end

theorem mem_scanRecursedList_of_child :
    ∀ (l : List DirTree) (c : DirTree), c ∈ l → ulidDirTest c.name = false →
      c ∈ scanRecursedList l := by
  intro l
  induction l with
  | nil => intro c hc; simp at hc
  | cons d rest ih =>
    intro c hc hu
    rcases List.mem_cons.mp hc with rfl | hc
    · simp only [scanRecursedList, List.mem_append]
      left
      simp [hu]
    · simp only [scanRecursedList, List.mem_append]
      right
      exact ih c hc hu

mutual
theorem scanRecursed_trans (t : DirTree) :
    ∀ d ∈ scanRecursed t, ∀ x ∈ scanRecursed d, x ∈ scanRecursed t := by
  cases t with
  | node name subs => exact scanRecursedList_trans subs
theorem scanRecursedList_trans (l : List DirTree) :
    ∀ d ∈ scanRecursedList l, ∀ x ∈ scanRecursed d, x ∈ scanRecursedList l := by
  cases l with
  | nil => intro d hd; simp [scanRecursedList] at hd
  | cons c rest =>
    intro d hd x hx
    simp only [scanRecursedList, List.mem_append] at hd
    simp only [scanRecursedList, List.mem_append]
    rcases hd with hd | hd
    · by_cases hu : ulidDirTest c.name
      · simp [hu] at hd
      · left
        simp only [hu, if_false]
        rcases List.mem_cons.mp (by simpa [hu] using hd) with rfl | hd'
        · exact List.mem_cons_of_mem _ hx
        · exact List.mem_cons_of_mem _ (scanRecursed_trans c d hd' x hx)
    · right
      exact scanRecursedList_trans rest d hd x hx
end

/-- C5: for every directory tree, discovery never emits a directory whose
name ends in `_failed-genes`; no name is both emitted and recursed into; and
for every visited directory (the root or any directory recursed into), each
subdirectory whose name matches the 26-character identifier pattern is
emitted unless it carries the excluded suffix — in which case it is neither
emitted nor recursed into — while every other subdirectory is recursed into
instead of emitted (emitted names all match the pattern, recursed names all
fail it). -/
theorem claim_c5_discovery_invariants (t : DirTree) :
    (∀ n ∈ scanEmits t, ulidDirTest n = true ∧ hasFailedSuffix n = false) ∧
    (∀ d ∈ scanRecursed t, ulidDirTest d.name = false) ∧
    (∀ n ∈ scanEmits t, ∀ d ∈ scanRecursed t, n ≠ d.name) ∧
    (∀ d ∈ t :: scanRecursed t, ∀ c ∈ d.subdirs,
      (ulidDirTest c.name = true → hasFailedSuffix c.name = false →
        c.name ∈ scanEmits t) ∧
      (ulidDirTest c.name = true → hasFailedSuffix c.name = true →
        c.name ∉ scanEmits t ∧ ∀ e ∈ scanRecursed t, e.name ≠ c.name) ∧
      (ulidDirTest c.name = false → c ∈ scanRecursed t)) := by
  refine ⟨scanEmits_sound t, scanRecursed_sound t, ?_, ?_⟩
  · intro n hn d hd heq
    have h1 := (scanEmits_sound t n hn).1
    have h2 := scanRecursed_sound t d hd
    rw [heq] at h1
    rw [h1] at h2
    simp at h2
  · intro d hd c hc
    refine ⟨?_, ?_, ?_⟩
    · intro hu hf
      rcases List.mem_cons.mp hd with rfl | hd'
      · cases d with
        | node nm subs => exact mem_scanEmitsList_of_child subs c hc hu hf
      · have hx1 : c.name ∈ scanEmits d := by
          cases d with
          | node nm subs => exact mem_scanEmitsList_of_child subs c hc hu hf
        exact scanEmits_sub t d hd' c.name hx1
    · intro hu hf
      constructor
      · intro hmem
        have := (scanEmits_sound t c.name hmem).2
        rw [hf] at this
        simp at this
      · intro e he heq
        have h2 := scanRecursed_sound t e he
        rw [heq, hu] at h2
        simp at h2
    · intro hu
      rcases List.mem_cons.mp hd with rfl | hd'
      · cases d with
        | node nm subs => exact mem_scanRecursedList_of_child subs c hc hu
      · have hx1 : c ∈ scanRecursed d := by
          cases d with
          | node nm subs => exact mem_scanRecursedList_of_child subs c hc hu
        exact scanRecursed_trans t d hd' c hx1

/-- Concrete directory tree used to witness C5: a root containing one run
directory. -/
def exTreeC5 : DirTree :=
  .node "root".toList [.node "00000000000000000000000000_a".toList []]

/-- Witness for C5: in the concrete tree, the matching subdirectory without
the excluded suffix is emitted. -/
theorem claim_c5_witness :
    "00000000000000000000000000_a".toList ∈ scanEmits exTreeC5 :=
  ((claim_c5_discovery_invariants exTreeC5).2.2.2 exTreeC5 (List.mem_cons_self _ _)
    (.node "00000000000000000000000000_a".toList []) (List.mem_cons_self _ _)).1
    (by decide) (by decide)

/-- Model of `extractEvorunName(folderName)`: split on `_`, and when at
least two parts exist re-join everything after the first part with `_`;
otherwise return the name unchanged. -/
def extractEvorunName (name : List Char) : List Char :=
  let parts := name.splitOn '_'
  if parts.length < 2 then name
  else List.intercalate [ '_' ] (parts.drop 1)

/-- A discovered run directory as consumed by the summary endpoint
(`folderName` and `relativePath` from `scanEvorunDirectories`; the absolute
path is not used by the grouping logic). -/
structure Folder where
  folderName : List Char
  relativePath : List Char
deriving DecidableEq, Repr

/-- A run summary record pushed into `groupedRuns[dateKey][evorunName]`:
`{ulid, folderName, relativePath, timestamp}` with the timestamp kept as
the decoded millisecond count (its ISO rendering and re-parsing in the sort
comparator are inverse to each other). -/
structure RunEntry where
  ulid : List Char
  folderName : List Char
  relativePath : List Char
  ts : Nat
deriving DecidableEq, Repr

/-- Model of `folder.folderName.match(/^([0-9A-Z]{26})_/)`: the captured
26-character identifier, if the pattern matches. -/
def matchUlid26 (name : List Char) : Option (List Char) :=
  if ulidDirTest name then some (name.take 26) else none

/-- Per-folder processing of the summary loop: a folder whose name fails
the identifier pattern is skipped with a warning, as is one whose timestamp
decode throws; otherwise a run record is produced. -/
def processFolder (f : Folder) : Option RunEntry :=
  match matchUlid26 f.folderName with
  | none => none
  | some ulid =>
    match decodeULIDTimestamp ulid with
    | .error _ => none
    | .ok ts =>
      some { ulid := ulid, folderName := f.folderName,
             relativePath := f.relativePath, ts := ts }

/-- Bucket key of a run record (`formatDateByGranularity(date, granularity)`). -/
def entryDateKey (g : Granularity) (e : RunEntry) : List Char :=
  formatDateByGranularity e.ts g

/-- Name key of a run record (`extractEvorunName(folder.folderName)`). -/
def entryName (e : RunEntry) : List Char := extractEvorunName e.folderName

/-- Comparator relation of the run sort
`(a, b) => new Date(b.timestamp) - new Date(a.timestamp)`: timestamps in
descending order. -/
def tsDesc (a b : RunEntry) : Prop := b.ts ≤ a.ts

instance : DecidableRel tsDesc := fun _ _ => Nat.decLe _ _

instance : IsTotal RunEntry tsDesc :=
  ⟨fun a b => Or.symm (Nat.le_total a.ts b.ts)⟩

instance : IsTrans RunEntry tsDesc :=
  ⟨fun _ _ _ h1 h2 => le_trans h2 h1⟩

/-- Model of `Object.keys(groupedRuns).sort().reverse()`: the distinct
bucket keys, sorted ascending and then reversed (most recent first). -/
def sortedDateKeys (g : Granularity) (entries : List RunEntry) : List (List Char) :=
  (List.insertionSort (· ≤ ·) (entries.map (entryDateKey g)).dedup).reverse

/-- Model of the per-bucket inner object: name keys sorted ascending
(`Object.keys(...).sort()`), each mapped to its runs sorted by timestamp
descending. -/
def bucketGroups (g : Granularity) (entries : List RunEntry) (k : List Char) :
    List (List Char × List RunEntry) :=
  let inBucket := entries.filter (fun e => entryDateKey g e == k)
  let names := List.insertionSort (· ≤ ·) (inBucket.map entryName).dedup
  names.map (fun n =>
    (n, List.insertionSort tsDesc (inBucket.filter (fun e => entryName e == n))))

/-- Model of the `GET /evoruns/summary` grouping: `totalRuns` is the total
number of discovered folders (computed before any filtering), and the
groups are the sorted view of the successfully processed entries. -/
def summarize (g : Granularity) (folders : List Folder) :
    Nat × List (List Char × List (List Char × List RunEntry)) :=
  let entries := folders.filterMap processFolder
  (folders.length, (sortedDateKeys g entries).map (fun k => (k, bucketGroups g entries k)))

theorem sortedDateKeys_strictDesc (g : Granularity) (entries : List RunEntry) :
    (sortedDateKeys g entries).Pairwise (fun a b : List Char => b < a) := by
  unfold sortedDateKeys
  rw [List.pairwise_reverse]
  have hs : (List.insertionSort (· ≤ ·) (entries.map (entryDateKey g)).dedup).Pairwise
      (fun a b : List Char => a ≤ b) :=
    List.sorted_insertionSort _ _
  have hn : (List.insertionSort (· ≤ ·) (entries.map (entryDateKey g)).dedup).Nodup :=
    (List.perm_insertionSort _ _).nodup_iff.mpr (List.nodup_dedup _)
  exact (hs.and hn).imp (fun h => lt_of_le_of_ne h.1 h.2)

theorem bucketGroups_names_strictAsc (g : Granularity) (entries : List RunEntry)
    (k : List Char) :
    ((bucketGroups g entries k).map Prod.fst).Pairwise (fun a b : List Char => a < b) := by
  unfold bucketGroups
  rw [List.map_map]
  have heq : (Prod.fst ∘ fun n => (n, List.insertionSort tsDesc
      ((entries.filter (fun e => entryDateKey g e == k)).filter
        (fun e => entryName e == n)))) = id := by
    funext n
    rfl
  rw [heq, List.map_id]
  have hs : (List.insertionSort (· ≤ ·)
      ((entries.filter (fun e => entryDateKey g e == k)).map entryName).dedup).Pairwise
      (fun a b : List Char => a ≤ b) :=
    List.sorted_insertionSort _ _
  have hn : (List.insertionSort (· ≤ ·)
      ((entries.filter (fun e => entryDateKey g e == k)).map entryName).dedup).Nodup :=
    (List.perm_insertionSort _ _).nodup_iff.mpr (List.nodup_dedup _)
  exact (hs.and hn).imp (fun h => lt_of_le_of_ne h.1 h.2)

theorem bucketGroups_runs_sorted (g : Granularity) (entries : List RunEntry)
    (k : List Char) :
    ∀ nr ∈ bucketGroups g entries k, nr.2.Sorted tsDesc := by
  intro nr hnr
  unfold bucketGroups at hnr
  obtain ⟨n, _, rfl⟩ := List.mem_map.mp hnr
  exact List.sorted_insertionSort tsDesc _

/-- C8: for every set of discovered run directories, the summarize output's
groups are fully sorted: bucket keys in (strictly) descending order, name
keys within each bucket in (strictly) ascending lexicographic order, and
the run entries within each bucket/name group in descending timestamp
order. -/
theorem claim_c8_summary_sorted (g : Granularity) (folders : List Folder) :
    ((summarize g folders).2.map Prod.fst).Pairwise (fun a b : List Char => b < a) ∧
    (∀ pr ∈ (summarize g folders).2,
      (pr.2.map Prod.fst).Pairwise (fun a b : List Char => a < b)) ∧
    (∀ pr ∈ (summarize g folders).2, ∀ nr ∈ pr.2, nr.2.Sorted tsDesc) := by
  refine ⟨?_, ?_, ?_⟩
  · unfold summarize
    rw [List.map_map]
    have heq : (Prod.fst ∘ fun k =>
        (k, bucketGroups g (folders.filterMap processFolder) k)) = id := by
      funext k
      rfl
    rw [heq, List.map_id]
    exact sortedDateKeys_strictDesc g _
  · intro pr hpr
    unfold summarize at hpr
    obtain ⟨k, _, rfl⟩ := List.mem_map.mp hpr
    exact bucketGroups_names_strictAsc g _ k
  · intro pr hpr nr hnr
    unfold summarize at hpr
    obtain ⟨k, _, rfl⟩ := List.mem_map.mp hpr
    exact bucketGroups_runs_sorted g _ k nr hnr

/-- Concrete folders used to witness C8: three runs sharing a bucket and a
name, with distinct timestamps. -/
def exFoldersC8 : List Folder :=
  [ { folderName := "00000000000000000000000000_a".toList, relativePath := "p0".toList },
    { folderName := "00000000010000000000000000_a".toList, relativePath := "p1".toList },
    { folderName := "00000000020000000000000000_a".toList, relativePath := "p2".toList } ]

/-- Witness for C8: the run list of the first bucket/name group of the
concrete example is sorted by timestamp descending. -/
theorem claim_c8_witness :
    (((summarize Granularity.month exFoldersC8).2.headD ⟨[], []⟩).2.headD
      ⟨[], []⟩).2.Sorted tsDesc :=
  (claim_c8_summary_sorted Granularity.month exFoldersC8).2.2
    ((summarize Granularity.month exFoldersC8).2.headD ⟨[], []⟩) (by decide)
    (((summarize Granularity.month exFoldersC8).2.headD ⟨[], []⟩).2.headD ⟨[], []⟩)
    (by decide)

/-- All run records appearing anywhere in the groups mapping. -/
def allGroupRuns (groups : List (List Char × List (List Char × List RunEntry))) :
    List RunEntry :=
  groups.flatMap (fun pr => pr.2.flatMap Prod.snd)

/-- C9: in the summarize result, `totalRuns` equals the number of
discovered folder entries — including any whose identifier fails the exact
26-character pattern match or whose timestamp decode fails — while every
run record present in the groups mapping comes from a folder that passed
both the pattern match and the decode (so failing entries are omitted from
`groups` but still counted in `totalRuns`). -/
theorem claim_c9_totalRuns_counts_all (g : Granularity) (folders : List Folder) :
    (summarize g folders).1 = folders.length ∧
    (∀ e ∈ allGroupRuns (summarize g folders).2,
      processFolder { folderName := e.folderName, relativePath := e.relativePath } =
        some e) := by
  constructor
  · rfl
  · intro e he
    unfold allGroupRuns at he
    obtain ⟨pr, hpr, he1⟩ := List.mem_flatMap.mp he
    obtain ⟨nr, hnr, he2⟩ := List.mem_flatMap.mp he1
    unfold summarize at hpr
    obtain ⟨k, _, rfl⟩ := List.mem_map.mp hpr
    unfold bucketGroups at hnr
    obtain ⟨n, _, rfl⟩ := List.mem_map.mp hnr
    have he3 : e ∈ (folders.filterMap processFolder).filter
        (fun x => entryDateKey g x == k) := by
      have := (List.perm_insertionSort tsDesc _).mem_iff.mp he2
      exact List.mem_of_mem_filter this
    have he4 : e ∈ folders.filterMap processFolder := List.mem_of_mem_filter he3
    obtain ⟨f, hf, hpf⟩ := List.mem_filterMap.mp he4
    by_cases hu : ulidDirTest f.folderName
    · cases hd : decodeULIDTimestamp (f.folderName.take 26) with
      | error err =>
        exfalso
        simp [processFolder, matchUlid26, hu, hd] at hpf
      | ok ts =>
        simp [processFolder, matchUlid26, hu, hd] at hpf
        subst hpf
        simp [processFolder, matchUlid26, hu, hd]
    · exfalso
      simp [processFolder, matchUlid26, hu] at hpf

/-- Concrete folders used to witness C9: one valid run directory and one
folder whose name fails the identifier pattern. -/
def exFoldersC9 : List Folder :=
  [ { folderName := "00000000000000000000000000_a".toList, relativePath := "p".toList },
    { folderName := "notARunDirectory".toList, relativePath := "q".toList } ]

/-- Witness for C9: the first run record in the groups of the concrete
example is indeed the processed image of its folder (and the example's
`totalRuns` counts the failing folder as well). -/
theorem claim_c9_witness :
    processFolder
      { folderName := ((allGroupRuns (summarize Granularity.month exFoldersC9).2).headD
          ⟨[], [], [], 0⟩).folderName,
        relativePath := ((allGroupRuns (summarize Granularity.month exFoldersC9).2).headD
          ⟨[], [], [], 0⟩).relativePath } =
      some ((allGroupRuns (summarize Granularity.month exFoldersC9).2).headD
        ⟨[], [], [], 0⟩) :=
  (claim_c9_totalRuns_counts_all Granularity.month exFoldersC9).2
    ((allGroupRuns (summarize Granularity.month exFoldersC9).2).headD ⟨[], [], [], 0⟩)
    (by decide)

/-- An entry of the connection pool `dbPool`: the API object returned by
`makeRunDbApi`, the store handles it owns (absent when the corresponding
store file does not exist), and the absolute time at which its idle timer
fires.  Object identities of the JavaScript heap are modelled as natural
numbers allocated from a counter. -/
structure CacheEntry where
  apiId : Nat
  genomeHandle : Option Nat
  featureHandle : Option Nat
  expiry : Nat
deriving DecidableEq, Repr

/-- State of the module-level cache: the `dbPool` map (association list
keyed by run-directory path) together with the allocation counter for fresh
handle/API identities (each `new Database(...)` or `makeRunDbApi` call
yields a fresh object). -/
structure CacheState where
  pool : List (String × CacheEntry)
  nextId : Nat
deriving DecidableEq, Repr

/-- Filesystem facts consulted by `getRunDB`: existence of
`genomes.sqlite` and `features.sqlite` inside a run directory. -/
structure RunFS where
  hasGenomesFile : String → Bool
  hasFeaturesFile : String → Bool

/-- Idle timeout `DB_TIMEOUT = 30 * 60 * 1000` (30 minutes). -/
def DB_TIMEOUT : Nat := 30 * 60 * 1000

/-- Model of `dbPool.get(path)` (JavaScript `Map` lookup). -/
def poolLookup (pool : List (String × CacheEntry)) (p : String) : Option CacheEntry :=
  (pool.find? (fun e => e.1 == p)).map Prod.snd

/-- Model of `clearTimeout(entry.timeout); entry.timeout = setTimeout(...)`:
the entry for the path gets a new expiry, everything else is unchanged. -/
def poolReschedule (pool : List (String × CacheEntry)) (p : String) (t : Nat) :
    List (String × CacheEntry) :=
  pool.map (fun e => if e.1 == p then (e.1, { e.2 with expiry := t }) else e)

/-- Model of `getRunDB(runPath)` from `evorun-db.js`, parameterized by the
filesystem and the current time `now`.  Returns the API object identity
(`none` models the `null` result for a directory with neither store file)
and the updated cache state. -/
def getRunDB (fs : RunFS) (now : Nat) (s : CacheState) (runPath : String) :
    Option Nat × CacheState :=
  match poolLookup s.pool runPath with
  | some entry =>
    (some entry.apiId,
     { s with pool := poolReschedule s.pool runPath (now + DB_TIMEOUT) })
  | none =>
    let genomesDbExists := fs.hasGenomesFile runPath
    let featuresDbExists := fs.hasFeaturesFile runPath
    if !genomesDbExists && !featuresDbExists then (none, s)
    else
      let genomeHandle := if genomesDbExists then some s.nextId else none
      let featureHandle := if featuresDbExists then some (s.nextId + 1) else none
      let apiId := s.nextId + 2
      let entry : CacheEntry :=
        { apiId := apiId, genomeHandle := genomeHandle,
          featureHandle := featureHandle, expiry := now + DB_TIMEOUT }
      (some apiId, { pool := s.pool ++ [(runPath, entry)], nextId := s.nextId + 3 })

theorem poolLookup_cons_pos (e : String × CacheEntry) (rest : List (String × CacheEntry))
    (p : String) (he : (e.1 == p) = true) : poolLookup (e :: rest) p = some e.2 := by
  simp [poolLookup, List.find?_cons, he]

theorem poolLookup_cons_neg (e : String × CacheEntry) (rest : List (String × CacheEntry))
    (p : String) (he : (e.1 == p) = false) : poolLookup (e :: rest) p = poolLookup rest p := by
  simp [poolLookup, List.find?_cons, he]

theorem poolReschedule_cons (e : String × CacheEntry) (rest : List (String × CacheEntry))
    (p : String) (t : Nat) :
    poolReschedule (e :: rest) p t =
      (if e.1 == p then (e.1, { e.2 with expiry := t }) else e) :: poolReschedule rest p t := rfl

theorem poolReschedule_keys (pool : List (String × CacheEntry)) (p : String) (t : Nat) :
    (poolReschedule pool p t).map Prod.fst = pool.map Prod.fst := by
  unfold poolReschedule
  rw [List.map_map]
  apply List.map_congr_left
  intro e _
  by_cases h : (e.1 == p) = true
  · simp only [Function.comp_apply, if_pos h]
  · simp only [Function.comp_apply, if_neg h]

theorem poolLookup_reschedule (pool : List (String × CacheEntry)) (p : String)
    (t : Nat) (entry : CacheEntry) (h : poolLookup pool p = some entry) :
    poolLookup (poolReschedule pool p t) p = some { entry with expiry := t } := by
  induction pool with
  | nil => simp [poolLookup] at h
  | cons e rest ih =>
    by_cases he : (e.1 == p) = true
    · rw [poolLookup_cons_pos e rest p he] at h
      have h2 : e.2 = entry := by simpa using h
      rw [poolReschedule_cons, if_pos he]
      rw [poolLookup_cons_pos _ _ _ (by simpa using he)]
      rw [h2]
    · have he' : (e.1 == p) = false := by simpa using he
      rw [poolLookup_cons_neg e rest p he'] at h
      rw [poolReschedule_cons, if_neg he]
      rw [poolLookup_cons_neg _ _ _ he']
      exact ih h

theorem poolLookup_none_not_mem (pool : List (String × CacheEntry)) (p : String)
    (h : poolLookup pool p = none) : p ∉ pool.map Prod.fst := by
  intro hmem
  obtain ⟨e, he, hfst⟩ := List.mem_map.mp hmem
  have : pool.find? (fun x => x.1 == p) ≠ none := by
    intro hn
    have := List.find?_eq_none.mp hn e he
    simp [hfst] at this
  unfold poolLookup at h
  cases hf : pool.find? (fun x => x.1 == p) with
  | none => exact this hf
  | some x => rw [hf] at h; simp at h

/-- C4: the connection cache holds at most one entry per run-directory path
(the no-duplicate-keys invariant is preserved by `getRunDB`); a second
acquire for a cached path returns the same API object identity (hence the
same underlying open store handles, with no new opens: the allocation
counter is unchanged) and merely reschedules the entry's idle timer to
`now + DB_TIMEOUT`; and when the path is not cached and neither store file
is present, `getRunDB` returns `null` and leaves the state unchanged (no
cache entry is created). -/
theorem claim_c4_cache_lifecycle (fs : RunFS) (now : Nat) (s : CacheState)
    (runPath : String) :
    ((s.pool.map Prod.fst).Nodup →
      (((getRunDB fs now s runPath).2).pool.map Prod.fst).Nodup) ∧
    (∀ entry, poolLookup s.pool runPath = some entry →
      (getRunDB fs now s runPath).1 = some entry.apiId ∧
      ((getRunDB fs now s runPath).2).nextId = s.nextId ∧
      poolLookup ((getRunDB fs now s runPath).2).pool runPath =
        some { entry with expiry := now + DB_TIMEOUT }) ∧
    (poolLookup s.pool runPath = none → fs.hasGenomesFile runPath = false →
      fs.hasFeaturesFile runPath = false → getRunDB fs now s runPath = (none, s)) := by
  refine ⟨?_, ?_, ?_⟩
  · intro hnd
    cases hl : poolLookup s.pool runPath with
    | some entry =>
      simp only [getRunDB, hl]
      rw [poolReschedule_keys]
      exact hnd
    | none =>
      have hnm := poolLookup_none_not_mem s.pool runPath hl
      by_cases hg : fs.hasGenomesFile runPath
      · simp [getRunDB, hl, hg, List.nodup_append, hnd, hnm]
      · by_cases hf : fs.hasFeaturesFile runPath
        · simp [getRunDB, hl, hg, hf, List.nodup_append, hnd, hnm]
        · simp [getRunDB, hl, hg, hf, hnd]
  · intro entry hentry
    refine ⟨?_, ?_, ?_⟩
    · simp [getRunDB, hentry]
    · simp [getRunDB, hentry]
    · simp only [getRunDB, hentry]
      exact poolLookup_reschedule s.pool runPath (now + DB_TIMEOUT) entry hentry
  · intro hl hg hf
    simp [getRunDB, hl, hg, hf]

/-- Concrete filesystem for the C4 witness: a genome store exists
everywhere, a feature store nowhere. -/
def exFSC4 : RunFS := { hasGenomesFile := fun _ => true, hasFeaturesFile := fun _ => false }

/-- Concrete filesystem for the C4 witness in which no store file exists. -/
def exFSC4empty : RunFS := { hasGenomesFile := fun _ => false, hasFeaturesFile := fun _ => false }

/-- Concrete cache entry for the C4 witness. -/
def exEntryC4 : CacheEntry :=
  { apiId := 5, genomeHandle := some 3, featureHandle := none, expiry := 100 }

/-- Concrete cache state for the C4 witness: one entry for path `r`. -/
def exStateC4 : CacheState := { pool := [("r", exEntryC4)], nextId := 7 }

/-- Witness for C4: on the concrete state, a repeated acquire for the cached
path returns the cached API identity without a new open, the key invariant
is preserved, and an acquire for an uncached path with no store files
returns `null` with the state unchanged. -/
theorem claim_c4_witness :
    (getRunDB exFSC4 0 exStateC4 "r").1 = some exEntryC4.apiId ∧
    (((getRunDB exFSC4 0 exStateC4 "r").2).pool.map Prod.fst).Nodup ∧
    getRunDB exFSC4empty 0 exStateC4 "q" = (none, exStateC4) :=
  ⟨((claim_c4_cache_lifecycle exFSC4 0 exStateC4 "r").2.1 exEntryC4 (by decide)).1,
   (claim_c4_cache_lifecycle exFSC4 0 exStateC4 "r").1 (by decide),
   (claim_c4_cache_lifecycle exFSC4empty 0 exStateC4 "q").2.2 (by decide) rfl rfl⟩
